import Mathlib

/-!
Verification of the spacetime-hash core (`lib_sthash.js`).

The library is embedded shallowly: JavaScript numbers are modelled as exact
rationals (`ℚ`), integer loop counters as `ℤ`, byte strings as `List Nat`
(each entry < 256), and the keyed hash `sha256.hmac(key, msg)` from the
`js-sha256` dependency as an executable HMAC-SHA-256 over byte lists.
All definitions are executable so that concrete golden vectors can be
checked by kernel evaluation.
-/

set_option maxRecDepth 8000

/-! ## SHA-256 over byte lists (model of the `js-sha256` dependency) -/

/-- Reduce modulo 2^32 (32-bit word arithmetic). -/
def w32 (x : Nat) : Nat := x % 4294967296

/-- Right-rotate a 32-bit word by `k` bits. -/
def rotr32 (k x : Nat) : Nat := x % 2 ^ k * 2 ^ (32 - k) + x / 2 ^ k

/-- Bitwise complement within 32 bits. -/
def not32 (x : Nat) : Nat := Nat.xor x 4294967295

/-- SHA-256 Ch(x,y,z) = (x AND y) XOR ((NOT x) AND z). -/
def shaCh (x y z : Nat) : Nat := Nat.xor (Nat.land x y) (Nat.land (not32 x) z)

/-- SHA-256 Maj(x,y,z). -/
def shaMaj (x y z : Nat) : Nat :=
  Nat.xor (Nat.land x y) (Nat.xor (Nat.land x z) (Nat.land y z))

/-- SHA-256 Σ0. -/
def shaS0 (x : Nat) : Nat := Nat.xor (rotr32 2 x) (Nat.xor (rotr32 13 x) (rotr32 22 x))

/-- SHA-256 Σ1. -/
def shaS1 (x : Nat) : Nat := Nat.xor (rotr32 6 x) (Nat.xor (rotr32 11 x) (rotr32 25 x))

/-- SHA-256 σ0. -/
def shas0 (x : Nat) : Nat := Nat.xor (rotr32 7 x) (Nat.xor (rotr32 18 x) (x / 2 ^ 3))

/-- SHA-256 σ1. -/
def shas1 (x : Nat) : Nat := Nat.xor (rotr32 17 x) (Nat.xor (rotr32 19 x) (x / 2 ^ 10))

/-- The 64 SHA-256 round constants (FIPS 180-4), written in decimal. -/
def shaK : List Nat :=
  [1116352408, 1899447441, 3049323471, 3921009573,
   961987163, 1508970993, 2453635748, 2870763221,
   3624381080, 310598401, 607225278, 1426881987,
   1925078388, 2162078206, 2614888103, 3248222580,
   3835390401, 4022224774, 264347078, 604807628,
   770255983, 1249150122, 1555081692, 1996064986,
   2554220882, 2821834349, 2952996808, 3210313671,
   3336571891, 3584528711, 113926993, 338241895,
   666307205, 773529912, 1294757372, 1396182291,
   1695183700, 1986661051, 2177026350, 2456956037,
   2730485921, 2820302411, 3259730800, 3345764771,
   3516065817, 3600352804, 4094571909, 275423344,
   430227734, 506948616, 659060556, 883997877,
   958139571, 1322822218, 1537002063, 1747873779,
   1955562222, 2024104815, 2227730452, 2361852424,
   2428436474, 2756734187, 3204031479, 3329325298]

/-- The eight 32-bit words of SHA-256 working state. -/
structure Sha256State where
  a : Nat
  b : Nat
  c : Nat
  d : Nat
  e : Nat
  f : Nat
  g : Nat
  h : Nat

/-- SHA-256 initial hash value (FIPS 180-4), written in decimal. -/
def shaInit : Sha256State :=
  ⟨1779033703, 3144134277, 1013904242, 2773480762,
   1359893119, 2600822924, 528734635, 1541459225⟩

/-- Pack big-endian groups of four bytes into 32-bit words. -/
def toWords : List Nat → List Nat
  | b0 :: b1 :: b2 :: b3 :: rest =>
      (((b0 * 256 + b1) * 256 + b2) * 256 + b3) :: toWords rest
  | _ => []

/-- Extend the 16 block words to the 64-entry message schedule. -/
def shaSchedule (w16 : List Nat) : List Nat :=
  (List.range 48).foldl
    (fun w j =>
      w ++ [w32 (shas1 (w.getD (j + 14) 0) + w.getD (j + 9) 0 +
                 shas0 (w.getD (j + 1) 0) + w.getD j 0)])
    w16

/-- One SHA-256 round, consuming a (round constant, schedule word) pair. -/
def shaRound (st : Sha256State) (kw : Nat × Nat) : Sha256State :=
  let t1 := w32 (st.h + shaS1 st.e + shaCh st.e st.f st.g + kw.1 + kw.2)
  let t2 := w32 (shaS0 st.a + shaMaj st.a st.b st.c)
  ⟨w32 (t1 + t2), st.a, st.b, st.c, w32 (st.d + t1), st.e, st.f, st.g⟩

/-- Compress one 64-byte block into the running state. -/
def shaCompress (st : Sha256State) (block : List Nat) : Sha256State :=
  let ws := shaSchedule (toWords block)
  let fin := (shaK.zip ws).foldl shaRound st
  ⟨w32 (st.a + fin.a), w32 (st.b + fin.b), w32 (st.c + fin.c), w32 (st.d + fin.d),
   w32 (st.e + fin.e), w32 (st.f + fin.f), w32 (st.g + fin.g), w32 (st.h + fin.h)⟩

/-- Process `n` successive 64-byte blocks of `bytes`. -/
def shaBlocks : Nat → Sha256State → List Nat → Sha256State
  | 0, st, _ => st
  | n + 1, st, bytes => shaBlocks n (shaCompress st (bytes.take 64)) (bytes.drop 64)

/-- Big-endian serialization of `v` into `n` bytes. -/
def bytesBE : Nat → Nat → List Nat
  | 0, _ => []
  | n + 1, v => v / 2 ^ (8 * n) % 256 :: bytesBE n v

/-- Serialize the final state into the 32-byte digest. -/
def stateBytes (st : Sha256State) : List Nat :=
  bytesBE 4 st.a ++ bytesBE 4 st.b ++ bytesBE 4 st.c ++ bytesBE 4 st.d ++
  bytesBE 4 st.e ++ bytesBE 4 st.f ++ bytesBE 4 st.g ++ bytesBE 4 st.h

/-- SHA-256 of a byte list: pad, compress each block, serialize. -/
def sha256 (msg : List Nat) : List Nat :=
  let len := msg.length
  let padLen := (64 - (len + 9) % 64) % 64
  let padded := msg ++ 0x80 :: (List.replicate padLen 0 ++ bytesBE 8 (len * 8))
  stateBytes (shaBlocks (padded.length / 64) shaInit padded)

/-- HMAC-SHA-256 of `msg` under `key` (the `sha256.hmac` entry point). -/
def hmacSha256 (key msg : List Nat) : List Nat :=
  let k0 := if 64 < key.length then sha256 key else key
  let k64 := k0 ++ List.replicate (64 - k0.length) 0
  sha256 ((k64.map (fun x => Nat.xor x 0x5c)) ++
          sha256 ((k64.map (fun x => Nat.xor x 0x36)) ++ msg))

/-- Lower-case hex digit. -/
def hexDigit (n : Nat) : Char := if n < 10 then Char.ofNat (48 + n) else Char.ofNat (87 + n)

/-- Two hex characters of one byte. -/
def hexByte (x : Nat) : List Char := [hexDigit (x / 16), hexDigit (x % 16)]

/-- Hex encoding of a byte list. -/
def hexChars (bytes : List Nat) : List Char := bytes.flatMap hexByte

/-- Byte list of a string (the keys and messages used here are ASCII). -/
def strBytes (s : String) : List Nat := s.data.map Char.toNat

/-! ## Decimal string form of a JavaScript number

`HMAC` concatenates `timestamp.toString() + lat.toString() + lng.toString()`.
JavaScript `Number.prototype.toString` prints the minimal decimal form
(e.g. `"123"`, `"25.123"`, `"-0.001"`).  On the exact rational model this is
computed from the reduced numerator and denominator; the digit loop carries
fuel, which is never exhausted for numbers with terminating decimal
expansions (the only ones produced by the library's arithmetic on decimal
inputs, and the only ones any claim evaluates). -/

/-- Fractional decimal digits of `r / d` (`r < d`), minimal (stops at 0). -/
def fracDigits : Nat → Nat → Nat → List Char
  | 0, _, _ => []
  | _ + 1, 0, _ => []
  | fuel + 1, r, d => Char.ofNat (48 + 10 * r / d) :: fracDigits fuel (10 * r % d) d

/-- Minimal decimal string of a rational (model of JS `Number.toString`). -/
def ratToString (q : ℚ) : String :=
  if q.den = 1 then toString q.num
  else
    (if q.num < 0 then "-" else "") ++ toString (q.num.natAbs / q.den) ++ "." ++
      String.mk (fracDigits 64 (q.num.natAbs % q.den) q.den)

/-! ## `HMAC` (lib_sthash.js lines 115-120) -/

/-- `HMAC(key)` returns the closure hashing a `(timestamp, lat, lng)` triple:
`sha256.hmac(key, timestamp.toString() + lat.toString() + lng.toString())`
truncated to its first `HASH_VALUE_LEN = 16` hex characters. -/
def HMAC (key : String) : ℚ → ℚ → ℚ → String := fun timestamp lat lng =>
  String.mk ((hexChars (hmacSha256 (strBytes key)
    (strBytes (ratToString timestamp ++ ratToString lat ++ ratToString lng)))).take 16)

/-! ## `quantifyLatLng` (lib_sthash.js lines 100-109)

The source computes the quantized coordinate as
`parseFloat(utils.shuffleFloat(lat, latlng_precision - 1, latlng_precision - 1, '0'))`;
`utils.js` is not part of the sources under review, so the digit-zeroing
routine is modelled from the spec. -/

/-- Integer part of a rational, truncated toward zero. -/
def truncInt (q : ℚ) : ℤ := if 0 ≤ q then ⌊q⌋ else ⌈q⌉

/-- Modelled from the spec: `utils.shuffleFloat(x, precision - 1, precision - 1, '0')`
followed by `parseFloat` (the `utils.js` source is absent).  Per §4.2 it
truncates (does not round) `x` at the decimal digit position implied by
`precision`, zeroing all digits beyond it, i.e. it keeps the integer
multiple of `10 ^ precision` nearest to `x` on the side of zero. -/
def shuffleFloatTrunc (x : ℚ) (precision : ℤ) : ℚ :=
  (truncInt (x / 10 ^ precision) : ℚ) * 10 ^ precision

/-- `quantifyLatLng(lat, lng, latlng_precision)`:
returns `[lat, lng, lat_step, lng_step]` with both steps `10 ^ precision`
and both coordinates truncated to that step. -/
def quantifyLatLng (lat lng : ℚ) (latlng_precision : ℤ) : ℚ × ℚ × ℚ × ℚ :=
  (shuffleFloatTrunc lat latlng_precision, shuffleFloatTrunc lng latlng_precision,
   10 ^ latlng_precision, 10 ^ latlng_precision)

/-! ## `quantifyDuration` (lib_sthash.js lines 76-87) -/

/-- The loop `for(let t = begin; t <= end; t += step) ret.push(t);`, run with
an explicit fuel bound on the number of iterations.  `quantifyDuration`
supplies the exact iteration count of the JS loop for a positive step;
`qdLoopF_closed` below shows any larger fuel gives the same list, i.e. the
loop exits on its own condition. -/
def qdLoopF : Nat → ℚ → ℚ → ℚ → List ℚ
  | 0, _, _, _ => []
  | fuel + 1, t, stop, step => if t ≤ stop then t :: qdLoopF fuel (t + step) stop step else []

/-- `quantifyDuration(begin_, end_, time_step_in_mins)`:
`step = time_step_in_mins * 60`, `begin = Math.floor(begin_ / step) * step`,
`end = Math.ceil(end_ / step) * step`, then push `t` from `begin` to `end`
by `step`.  The fuel is the exact number of iterations of the JS loop when
`step > 0` (for `step ≤ 0` the JS loop never terminates; see
`quantifyDuration_no_validation_loops_forever`). -/
def quantifyDuration (b e time_step_in_mins : ℚ) : List ℚ :=
  let step := time_step_in_mins * 60
  qdLoopF (⌈e / step⌉ - ⌊b / step⌋ + 1).toNat
    ((⌊b / step⌋ : ℚ) * step) ((⌈e / step⌉ : ℚ) * step) step

/-! ## `hashSpacetime` (lib_sthash.js lines 142-165) -/

/-- The ascending integer loop `for(let i = lo; i <= hi; i++)`. -/
def intRangeAsc (lo hi : ℤ) : List ℤ :=
  (List.range (hi + 1 - lo).toNat).map (fun (i : ℕ) => lo + (i : ℤ))

/-- The descending integer loop `for(let i = hi; i >= lo; i--)`. -/
def intRangeDesc (hi lo : ℤ) : List ℤ :=
  (List.range (hi + 1 - lo).toNat).map (fun (i : ℕ) => hi - (i : ℤ))

/-- Error taxonomy of spec §7.  `lib_sthash.js` itself contains no `throw`;
the result of `hashSpacetime` is typed in `Except` so that the spec's
validation claims can be stated and compared against the code. -/
inductive HashError where
  | invalidArgument : HashError
  | configurationError : HashError
deriving DecidableEq

/-- `hashSpacetime(key, begin, end, lat, lng, time_step_in_mins,
latlng_precision, spread_out)`: quantize the coordinates, then for each
quantized timestamp push the hashes of the empty square's top/bottom rows
(`lng_i` from `-spread_out` to `spread_out`) and of its left/right columns
(`lat_i` from `spread_out - 1` down to `-spread_out + 1`).  The source
performs no validation and never throws, so the body is a single `ok`. -/
def hashSpacetime (key : String) (b e lat0 lng0 time_step_in_mins : ℚ)
    (latlng_precision spread_out : ℤ) : Except HashError (List String) :=
  let hmac := HMAC key
  let q := quantifyLatLng lat0 lng0 latlng_precision
  let lat := q.1
  let lng := q.2.1
  let lat_step := q.2.2.1
  let lng_step := q.2.2.2
  Except.ok <|
    (quantifyDuration b e time_step_in_mins).flatMap fun t =>
      ((intRangeAsc (-spread_out) spread_out).flatMap fun lng_i =>
        [hmac t (lat - spread_out * lat_step) (lng + lng_i * lng_step),
         hmac t (lat + spread_out * lat_step) (lng + lng_i * lng_step)]) ++
      ((intRangeDesc (spread_out - 1) (-spread_out + 1)).flatMap fun lat_i =>
        [hmac t (lat + lat_i * lat_step) (lng - spread_out * lng_step),
         hmac t (lat + lat_i * lat_step) (lng + spread_out * lng_step)])

/-! ## Spec-side definitions (spec §4.3 and §4.5), for the refinement claims -/

/-- Spec §4.3, `GridPerimeterEnumerator.enumerate`: top and bottom rows for
`lng_i` from `-spread_out` to `spread_out`, then left and right columns for
`lat_i` from `spread_out - 1` down to `-(spread_out - 1)`. -/
def enumeratePerimeter (lat lng lat_step lng_step : ℚ) (spread_out : ℤ) : List (ℚ × ℚ) :=
  ((intRangeAsc (-spread_out) spread_out).flatMap fun lng_i =>
    [(lat - spread_out * lat_step, lng + lng_i * lng_step),
     (lat + spread_out * lat_step, lng + lng_i * lng_step)]) ++
  ((intRangeDesc (spread_out - 1) (-spread_out + 1)).flatMap fun lat_i =>
    [(lat + lat_i * lat_step, lng - spread_out * lng_step),
     (lat + lat_i * lat_step, lng + spread_out * lng_step)])

/-- Spec §4.5, `SpacetimeHasher.hash`: for each `t` in `QuantizedTime`
(ascending), for each perimeter point in the §4.3 order, append
`KeyedHasher(key)(t, lat, lng)`. -/
def specHashTokens (key : String) (b e lat0 lng0 time_step_in_mins : ℚ)
    (latlng_precision spread_out : ℤ) : List String :=
  let q := quantifyLatLng lat0 lng0 latlng_precision
  (quantifyDuration b e time_step_in_mins).flatMap fun t =>
    (enumeratePerimeter q.1 q.2.1 q.2.2.1 q.2.2.2 spread_out).map fun pt =>
      HMAC key t pt.1 pt.2



/-! ## Length facts about the hash pipeline -/

lemma length_bytesBE (n v : ℕ) : (bytesBE n v).length = n := by
  induction n generalizing v with
  | zero => simp [bytesBE]
  | succ k ih => simp [bytesBE, ih]

lemma length_stateBytes (st : Sha256State) : (stateBytes st).length = 32 := by
  simp [stateBytes, length_bytesBE]

lemma length_sha256 (msg : List Nat) : (sha256 msg).length = 32 :=
  length_stateBytes _

lemma length_hmacSha256 (key msg : List Nat) : (hmacSha256 key msg).length = 32 :=
  length_sha256 _

lemma length_hexChars (l : List Nat) : (hexChars l).length = 2 * l.length := by
  induction l with
  | nil => simp [hexChars]
  | cons x xs ih =>
      simp only [hexChars, List.flatMap_cons, List.length_append, List.length_cons] at ih ⊢
      simp [hexByte, ih]; omega

lemma HMAC_length (key : String) (t lat lng : ℚ) : (HMAC key t lat lng).length = 16 := by
  show ((hexChars (hmacSha256 (strBytes key)
    (strBytes (ratToString t ++ ratToString lat ++ ratToString lng)))).take 16).length = 16
  rw [List.length_take, length_hexChars, length_hmacSha256]
  rfl

/-- Claim C4: for every key, timestamp, lat and lng, `HMAC(key)(t, lat, lng)`
is HMAC-SHA-256 of the key over the concatenation of the minimal decimal
string forms of the three numbers with no separators, hex-encoded and
truncated to its first 16 hex characters, so every token has length exactly
16; in particular `HMAC("abc")(123, 25.123, 122.123) = "bfa8c5bc764321ac"`. -/
theorem HMAC_spec_and_golden :
    (∀ (key : String) (t lat lng : ℚ),
      HMAC key t lat lng =
        String.mk ((hexChars (hmacSha256 (strBytes key)
          (strBytes (ratToString t ++ ratToString lat ++ ratToString lng)))).take 16) ∧
      (HMAC key t lat lng).length = 16) ∧
    HMAC "abc" 123 (25123 / 1000) (122123 / 1000) = "bfa8c5bc764321ac" := by
  refine ⟨fun key t lat lng => ⟨rfl, HMAC_length key t lat lng⟩, ?_⟩
  have hlat : (25123 / 1000 : ℚ) = Rat.mk' 25123 1000 (by decide) (by decide) := by
    rw [Rat.mk'_eq_divInt, Rat.divInt_eq_div]; norm_num
  have hlng : (122123 / 1000 : ℚ) = Rat.mk' 122123 1000 (by decide) (by decide) := by
    rw [Rat.mk'_eq_divInt, Rat.divInt_eq_div]; norm_num
  rw [hlat, hlng]
  decide

/-! ## `quantifyDuration`: closed form of the loop for a positive step -/

/-- For a positive step the push loop, given at least the exact iteration
count as fuel, returns the arithmetic progression from `L * step` to
`U * step`; in particular the result does not depend on any extra fuel, so
the JS loop terminates by its own condition. -/
lemma qdLoopF_closed (step : ℚ) (hs : 0 < step) :
    ∀ (n : ℕ) (L U : ℤ), (U - L + 1).toNat ≤ n →
      qdLoopF n ((L : ℚ) * step) ((U : ℚ) * step) step =
        (List.range (U - L + 1).toNat).map (fun (i : ℕ) => ((L + i : ℤ) : ℚ) * step) := by
  intro n
  induction n with
  | zero =>
      intro L U h
      have h0 : (U - L + 1).toNat = 0 := by omega
      simp [qdLoopF, h0]
  | succ k ih =>
      intro L U h
      by_cases hLU : L ≤ U
      · have hcond : (L : ℚ) * step ≤ (U : ℚ) * step :=
          mul_le_mul_of_nonneg_right (by exact_mod_cast hLU) (le_of_lt hs)
        have hcount : (U - L + 1).toNat = (U - (L + 1) + 1).toNat + 1 := by omega
        have hrec : (L : ℚ) * step + step = ((L + 1 : ℤ) : ℚ) * step := by push_cast; ring
        simp only [qdLoopF]
        rw [if_pos hcond, hrec, ih (L + 1) U (by omega), hcount,
          List.range_succ_eq_map]
        simp only [List.map_cons, List.map_map, List.cons.injEq]
        refine ⟨by push_cast; ring, ?_⟩
        apply List.map_congr_left
        intro a _
        simp only [Function.comp]
        push_cast
        ring
      · have h0 : (U - L + 1).toNat = 0 := by omega
        have hcond : ¬ ((L : ℚ) * step ≤ (U : ℚ) * step) := by
          intro hc
          exact hLU (by exact_mod_cast le_of_mul_le_mul_right hc hs)
        simp only [qdLoopF]
        rw [if_neg hcond, h0]
        simp

/-- `quantifyDuration` for a positive step, in closed form. -/
lemma quantifyDuration_closed (b e m : ℚ) (hm : 0 < m) :
    quantifyDuration b e m =
      (List.range (⌈e / (m * 60)⌉ - ⌊b / (m * 60)⌋ + 1).toNat).map
        (fun (i : ℕ) => ((⌊b / (m * 60)⌋ + i : ℤ) : ℚ) * (m * 60)) :=
  qdLoopF_closed (m * 60) (by positivity) _ _ _ le_rfl

/-- With `begin <= end` and a positive step, the floor of the start is at
most the ceiling of the stop. -/
lemma qd_floor_le_ceil (b e m : ℚ) (hm : 0 < m) (hbe : b ≤ e) :
    ⌊b / (m * 60)⌋ ≤ ⌈e / (m * 60)⌉ := by
  have hstep : (0 : ℚ) < m * 60 := by positivity
  have h1 : b / (m * 60) ≤ e / (m * 60) := by gcongr
  exact le_trans (Int.floor_le_floor h1) (Int.floor_le_ceil _)

/-- Claim C2: for `time_step_minutes > 0` and `begin <= end`,
`quantifyDuration` returns the inclusive arithmetic progression from
`floor(begin/step)*step` to `ceil(end/step)*step` with stride
`step = time_step_minutes * 60`, strictly increasing, with first element at
most `begin` and last element at least `end`; in particular
`quantifyDuration(123, 601, 10) = [0, 600, 1200]`. -/
theorem quantifyDuration_spec :
    (∀ b e m : ℚ, 0 < m → b ≤ e →
      quantifyDuration b e m =
        (List.range (⌈e / (m * 60)⌉ - ⌊b / (m * 60)⌋ + 1).toNat).map
          (fun (i : ℕ) => ((⌊b / (m * 60)⌋ + i : ℤ) : ℚ) * (m * 60)) ∧
      (quantifyDuration b e m).head? = some ((⌊b / (m * 60)⌋ : ℚ) * (m * 60)) ∧
      (quantifyDuration b e m).getLast? = some ((⌈e / (m * 60)⌉ : ℚ) * (m * 60)) ∧
      (⌊b / (m * 60)⌋ : ℚ) * (m * 60) ≤ b ∧
      e ≤ (⌈e / (m * 60)⌉ : ℚ) * (m * 60) ∧
      List.Chain' (fun x y => y = x + m * 60) (quantifyDuration b e m) ∧
      List.Chain' (· < ·) (quantifyDuration b e m)) ∧
    quantifyDuration 123 601 10 = [0, 600, 1200] := by
  have golden : quantifyDuration 123 601 10 = [0, 600, 1200] := by
    have h1 : ⌊(123 : ℚ) / (10 * 60)⌋ = 0 := by norm_num
    have h2 : ⌈(601 : ℚ) / (10 * 60)⌉ = 2 := by
      rw [Int.ceil_eq_iff]; norm_num
    rw [quantifyDuration_closed 123 601 10 (by norm_num), h1, h2]
    have h3 : ((2 : ℤ) - 0 + 1).toNat = 3 := by decide
    rw [h3]
    simp [List.range_succ]
    norm_num
  refine ⟨?_, golden⟩
  intro b e m hm hbe
  have hstep : (0 : ℚ) < m * 60 := by positivity
  have hLU := qd_floor_le_ceil b e m hm hbe
  have hclosed := quantifyDuration_closed b e m hm
  set L := ⌊b / (m * 60)⌋ with hL
  set U := ⌈e / (m * 60)⌉ with hU
  have hN : (U - L + 1).toNat = (U - L).toNat + 1 := by omega
  refine ⟨hclosed, ?_, ?_, ?_, ?_, ?_, ?_⟩
  · rw [hclosed, hN, List.range_succ_eq_map]
    simp only [List.map_cons, List.head?_cons]
    norm_num
  · rw [hclosed, hN, List.range_succ, List.map_append, List.map_cons, List.map_nil,
      List.getLast?_concat]
    have heq : L + ((U - L).toNat : ℤ) = U := by omega
    rw [heq]
  · calc ((L : ℚ)) * (m * 60) ≤ b / (m * 60) * (m * 60) :=
          mul_le_mul_of_nonneg_right (Int.floor_le _) (le_of_lt hstep)
      _ = b := div_mul_cancel₀ b (ne_of_gt hstep)
  · calc e = e / (m * 60) * (m * 60) := (div_mul_cancel₀ e (ne_of_gt hstep)).symm
      _ ≤ (U : ℚ) * (m * 60) :=
          mul_le_mul_of_nonneg_right (Int.le_ceil _) (le_of_lt hstep)
  · rw [hclosed, List.chain'_map, hN]
    refine (List.chain'_range_succ _ _).mpr ?_
    intro i hi
    push_cast
    ring
  · rw [hclosed, List.chain'_map, hN]
    refine (List.chain'_range_succ _ _).mpr ?_
    intro i hi
    have hc : ((L + i : ℤ) : ℚ) < ((L + (i + 1) : ℤ) : ℚ) := by push_cast; linarith
    exact mul_lt_mul_of_pos_right hc hstep

/-- Witness for C2 at `(begin, end, m) = (123, 601, 10)`. -/
theorem quantifyDuration_spec_witness :
    (0 : ℚ) < 10 ∧ (123 : ℚ) ≤ 601 ∧ List.Chain' (· < ·) (quantifyDuration 123 601 10) :=
  ⟨by norm_num, by norm_num,
    (quantifyDuration_spec.1 123 601 10 (by norm_num) (by norm_num)).2.2.2.2.2.2⟩

/-! ## Integer loop ranges and the perimeter enumeration -/

lemma length_intRangeAsc (lo hi : ℤ) : (intRangeAsc lo hi).length = (hi + 1 - lo).toNat := by
  simp [intRangeAsc]

lemma length_intRangeDesc (hi lo : ℤ) : (intRangeDesc hi lo).length = (hi + 1 - lo).toNat := by
  simp [intRangeDesc]

lemma mem_intRangeAsc {i lo hi : ℤ} : i ∈ intRangeAsc lo hi ↔ lo ≤ i ∧ i ≤ hi := by
  simp only [intRangeAsc, List.mem_map, List.mem_range]
  constructor
  · rintro ⟨a, ha, rfl⟩
    omega
  · rintro ⟨h1, h2⟩
    exact ⟨(i - lo).toNat, by omega, by omega⟩

lemma mem_intRangeDesc {i hi lo : ℤ} : i ∈ intRangeDesc hi lo ↔ lo ≤ i ∧ i ≤ hi := by
  simp only [intRangeDesc, List.mem_map, List.mem_range]
  constructor
  · rintro ⟨a, ha, rfl⟩
    omega
  · rintro ⟨h1, h2⟩
    exact ⟨(hi - i).toNat, by omega, by omega⟩

lemma nodup_intRangeAsc (lo hi : ℤ) : (intRangeAsc lo hi).Nodup :=
  List.Nodup.map (fun a b hab => by omega) (List.nodup_range _)

lemma nodup_intRangeDesc (hi lo : ℤ) : (intRangeDesc hi lo).Nodup :=
  List.Nodup.map (fun a b hab => by omega) (List.nodup_range _)

/-- Length of a `flatMap` whose blocks all have the same length. -/
lemma length_flatMap_const {α β : Type} (l : List α) (f : α → List β) (c : ℕ)
    (h : ∀ x ∈ l, (f x).length = c) : (l.flatMap f).length = l.length * c := by
  induction l with
  | nil => simp
  | cons x xs ih =>
      rw [List.flatMap_cons, List.length_append, h x (by simp),
        ih (fun y hy => h y (by simp [hy])), List.length_cons]
      ring

/-- A `flatMap` of empty blocks is empty. -/
lemma flatMap_nil_of_forall {α β : Type} (l : List α) (f : α → List β)
    (h : ∀ x, f x = []) : l.flatMap f = [] := by
  induction l with
  | nil => simp
  | cons x xs ih => rw [List.flatMap_cons, h, ih]; rfl

lemma length_enumeratePerimeter (lat lng a b : ℚ) (s : ℤ) :
    (enumeratePerimeter lat lng a b s).length =
      2 * (2 * s + 1).toNat + 2 * (2 * s - 1).toNat := by
  have hA : ((intRangeAsc (-s) s).flatMap (fun lng_i =>
        [(lat - s * a, lng + lng_i * b), (lat + s * a, lng + lng_i * b)])).length
      = (intRangeAsc (-s) s).length * 2 :=
    length_flatMap_const _ _ 2 (fun x _ => rfl)
  have hB : ((intRangeDesc (s - 1) (-s + 1)).flatMap (fun lat_i =>
        [(lat + lat_i * a, lng - s * b), (lat + lat_i * a, lng + s * b)])).length
      = (intRangeDesc (s - 1) (-s + 1)).length * 2 :=
    length_flatMap_const _ _ 2 (fun x _ => rfl)
  rw [enumeratePerimeter, List.length_append, hA, hB,
    length_intRangeAsc, length_intRangeDesc]
  omega

/-- Claim C3: the perimeter enumeration yields exactly `8 * spread_out`
points per timestamp when `spread_out >= 1`, and for `spread_out == 0`
exactly two points, both equal to the quantized center. -/
theorem enumeratePerimeter_count :
    (∀ (lat lng a b : ℚ) (s : ℤ), 1 ≤ s →
      (enumeratePerimeter lat lng a b s).length = 8 * s.toNat) ∧
    (∀ lat lng a b : ℚ, enumeratePerimeter lat lng a b 0 = [(lat, lng), (lat, lng)]) := by
  constructor
  · intro lat lng a b s hs
    rw [length_enumeratePerimeter]
    omega
  · intro lat lng a b
    have h1 : intRangeAsc 0 0 = [0] := by decide
    have h2 : intRangeDesc (-1) 1 = [] := by decide
    simp [enumeratePerimeter, h1, h2]

/-- Witness for C3 at `spread_out = 1`. -/
theorem enumeratePerimeter_count_witness :
    1 ≤ (1 : ℤ) ∧ (enumeratePerimeter 0 0 1 1 1).length = 8 * (1 : ℤ).toNat :=
  ⟨by decide, enumeratePerimeter_count.1 0 0 1 1 1 (by decide)⟩

/-! ## `hashSpacetime` versus the spec's §4.3/§4.5 composition -/

/-- The token sequence of `hashSpacetime` is exactly the §4.5 composition:
the code's inline perimeter loops agree with `enumeratePerimeter`, and no
error is ever produced. -/
lemma hashSpacetime_eq_spec (key : String) (b e lat lng m : ℚ) (p s : ℤ) :
    hashSpacetime key b e lat lng m p s =
      Except.ok (specHashTokens key b e lat lng m p s) := by
  simp only [hashSpacetime, specHashTokens, enumeratePerimeter, List.map_append,
    List.map_flatMap, List.map_cons, List.map_nil]

lemma intRangeAsc_neg (s : ℤ) (hs : s < 0) : intRangeAsc (-s) s = [] := by
  simp only [intRangeAsc, List.map_eq_nil_iff, List.range_eq_nil]
  omega

lemma intRangeDesc_neg (s : ℤ) (hs : s < 1) : intRangeDesc (s - 1) (-s + 1) = [] := by
  simp only [intRangeDesc, List.map_eq_nil_iff, List.range_eq_nil]
  omega

/-- With a negative spread both perimeter loops are empty, so every
timestamp contributes no token and the result is `ok []`. -/
lemma hashSpacetime_spread_neg (key : String) (b e lat lng m : ℚ) (p s : ℤ)
    (hs : s < 0) : hashSpacetime key b e lat lng m p s = Except.ok [] := by
  simp only [hashSpacetime]
  congr 1
  apply flatMap_nil_of_forall
  intro t
  rw [intRangeAsc_neg s hs, intRangeDesc_neg s (by omega), List.flatMap_nil,
    List.flatMap_nil]
  rfl

/-- Claim C1: for valid inputs, `hashSpacetime` returns exactly the sequence
obtained by iterating the quantized timestamps in ascending order and, for
each, the perimeter points in the §4.3 enumeration order, appending the
keyed hash of each pair; the output length is
`|QuantizedTime| * |Perimeter|`. -/
theorem hashSpacetime_matches_spec :
    ∀ (key : String) (b e lat lng m : ℚ) (p s : ℤ), 0 < m → b ≤ e → 1 ≤ s →
      hashSpacetime key b e lat lng m p s =
        Except.ok (specHashTokens key b e lat lng m p s) ∧
      (specHashTokens key b e lat lng m p s).length =
        (quantifyDuration b e m).length *
          (enumeratePerimeter (quantifyLatLng lat lng p).1 (quantifyLatLng lat lng p).2.1
            (quantifyLatLng lat lng p).2.2.1 (quantifyLatLng lat lng p).2.2.2 s).length := by
  intro key b e lat lng m p s hm hbe hs
  refine ⟨hashSpacetime_eq_spec key b e lat lng m p s, ?_⟩
  simp only [specHashTokens]
  exact length_flatMap_const _ _ _ (fun t _ => List.length_map _ _)

/-- Witness for C1 at a concrete valid input. -/
theorem hashSpacetime_matches_spec_witness :
    (0 : ℚ) < 10 ∧ (0 : ℚ) ≤ 0 ∧ 1 ≤ (1 : ℤ) ∧
      hashSpacetime "abc" 0 0 25 122 10 (-3) 1 =
        Except.ok (specHashTokens "abc" 0 0 25 122 10 (-3) 1) :=
  ⟨by norm_num, le_rfl, by decide,
    (hashSpacetime_matches_spec "abc" 0 0 25 122 10 (-3) 1
      (by norm_num) le_rfl (by decide)).1⟩

/-- Claim C9: for a negative spread (and otherwise valid inputs)
`hashSpacetime` returns the empty sequence: both perimeter loop ranges are
empty, so no token is emitted for any quantized timestamp and no error is
raised. -/
theorem hashSpacetime_negative_spread_empty :
    ∀ (key : String) (b e lat lng m : ℚ) (p s : ℤ), 0 < m → b ≤ e → s < 0 →
      hashSpacetime key b e lat lng m p s = Except.ok [] := by
  intro key b e lat lng m p s hm hbe hs
  exact hashSpacetime_spread_neg key b e lat lng m p s hs

/-- Witness for C9 at `spread_out = -1`. -/
theorem hashSpacetime_negative_spread_empty_witness :
    (0 : ℚ) < 10 ∧ (0 : ℚ) ≤ 0 ∧ (-1 : ℤ) < 0 ∧
      hashSpacetime "abc" 0 0 25 122 10 (-3) (-1) = Except.ok [] :=
  ⟨by norm_num, le_rfl, by decide,
    hashSpacetime_negative_spread_empty "abc" 0 0 25 122 10 (-3) (-1)
      (by norm_num) le_rfl (by decide)⟩

/-- Counterexample to claim C7: at `spread_out = -1` (invalid per the spec)
`hashSpacetime` returns normally with the empty token list instead of
raising `InvalidArgument`, and with the empty key (invalid per the spec) it
also returns normally instead of raising `ConfigurationError`. -/
theorem hashSpacetime_no_validation_counterexample :
    hashSpacetime "abc" 100 700 25 122 10 (-3) (-1) = Except.ok [] ∧
    hashSpacetime "" 100 700 25 122 10 (-3) (-1) = Except.ok [] :=
  ⟨hashSpacetime_spread_neg "abc" 100 700 25 122 10 (-3) (-1) (by decide),
   hashSpacetime_spread_neg "" 100 700 25 122 10 (-3) (-1) (by decide)⟩

/-- Amended claim C7: `hashSpacetime` performs no input validation at all:
for every input (with a positive time step, so that the time loop
terminates) it returns `ok` of the full token sequence — never an error —
and the sequence has `2*(2s+1).toNat + 2*(2s-1).toNat` tokens per quantized
timestamp (`8s` for `s >= 1`, `2` for `s = 0`, `0` for `s < 0`); in
particular a negative spread yields `ok []` and an empty key is accepted. -/
theorem hashSpacetime_never_raises :
    ∀ (key : String) (b e lat lng m : ℚ) (p s : ℤ), 0 < m →
      ∃ ts : List String, hashSpacetime key b e lat lng m p s = Except.ok ts ∧
        ts.length = (quantifyDuration b e m).length *
          (2 * (2 * s + 1).toNat + 2 * (2 * s - 1).toNat) := by
  intro key b e lat lng m p s hm
  refine ⟨specHashTokens key b e lat lng m p s,
    hashSpacetime_eq_spec key b e lat lng m p s, ?_⟩
  simp only [specHashTokens]
  exact length_flatMap_const _ _ _
    (fun t _ => by rw [List.length_map, length_enumeratePerimeter])

/-- Witness for the amended C7 at a concrete input with negative spread and
empty key. -/
theorem hashSpacetime_never_raises_witness :
    (0 : ℚ) < 10 ∧
      ∃ ts : List String, hashSpacetime "" 0 0 25 122 10 (-3) (-1) = Except.ok ts ∧
        ts.length = (quantifyDuration 0 0 10).length *
          (2 * (2 * (-1 : ℤ) + 1).toNat + 2 * (2 * (-1 : ℤ) - 1).toNat) :=
  ⟨by norm_num, hashSpacetime_never_raises "" 0 0 25 122 10 (-3) (-1) (by norm_num)⟩

/-! ## Coordinate truncation: C5 and C8 -/

lemma step_pos (p : ℤ) : (0 : ℚ) < 10 ^ p := by positivity

lemma step_ne (p : ℤ) : (10 : ℚ) ^ p ≠ 0 := ne_of_gt (step_pos p)

/-- Truncation toward zero keeps at most the magnitude and loses less than
one grid step. -/
lemma shuffleFloatTrunc_bounds (x : ℚ) (p : ℤ) :
    |shuffleFloatTrunc x p| ≤ |x| ∧ |x| < |shuffleFloatTrunc x p| + 10 ^ p := by
  have hs := step_pos p
  have hsne := step_ne p
  have hx_eq : x / 10 ^ p * 10 ^ p = x := div_mul_cancel₀ x hsne
  by_cases hx : 0 ≤ x
  · have hy : 0 ≤ x / 10 ^ p := div_nonneg hx (le_of_lt hs)
    have htr : shuffleFloatTrunc x p = (⌊x / 10 ^ p⌋ : ℚ) * 10 ^ p := by
      rw [shuffleFloatTrunc, truncInt, if_pos hy]
    have hfl0 : (0 : ℚ) ≤ (⌊x / 10 ^ p⌋ : ℚ) := by
      exact_mod_cast Int.floor_nonneg.mpr hy
    have hle : (⌊x / 10 ^ p⌋ : ℚ) * 10 ^ p ≤ x := by
      calc (⌊x / 10 ^ p⌋ : ℚ) * 10 ^ p ≤ x / 10 ^ p * 10 ^ p :=
            mul_le_mul_of_nonneg_right (Int.floor_le _) (le_of_lt hs)
        _ = x := hx_eq
    have hlt : x < (⌊x / 10 ^ p⌋ : ℚ) * 10 ^ p + 10 ^ p := by
      have h1 : x / 10 ^ p < (⌊x / 10 ^ p⌋ : ℚ) + 1 := Int.lt_floor_add_one _
      have h2 : x / 10 ^ p * 10 ^ p < ((⌊x / 10 ^ p⌋ : ℚ) + 1) * 10 ^ p :=
        mul_lt_mul_of_pos_right h1 hs
      rw [hx_eq] at h2
      linarith [h2]
    rw [htr, abs_of_nonneg hx, abs_of_nonneg (mul_nonneg hfl0 (le_of_lt hs))]
    exact ⟨hle, hlt⟩
  · have hxlt : x < 0 := lt_of_not_ge hx
    have hy : x / 10 ^ p < 0 := div_neg_of_neg_of_pos hxlt hs
    have htr : shuffleFloatTrunc x p = (⌈x / 10 ^ p⌉ : ℚ) * 10 ^ p := by
      rw [shuffleFloatTrunc, truncInt, if_neg (not_le.mpr hy)]
    have hcl0 : (⌈x / 10 ^ p⌉ : ℚ) ≤ 0 := by
      exact_mod_cast Int.ceil_le.mpr (by exact_mod_cast le_of_lt hy)
    have hge : x ≤ (⌈x / 10 ^ p⌉ : ℚ) * 10 ^ p := by
      calc x = x / 10 ^ p * 10 ^ p := hx_eq.symm
        _ ≤ (⌈x / 10 ^ p⌉ : ℚ) * 10 ^ p :=
            mul_le_mul_of_nonneg_right (Int.le_ceil _) (le_of_lt hs)
    have hlt : (⌈x / 10 ^ p⌉ : ℚ) * 10 ^ p - 10 ^ p < x := by
      have h1 : (⌈x / 10 ^ p⌉ : ℚ) - 1 < x / 10 ^ p := by
        have := Int.ceil_lt_add_one (x / 10 ^ p)
        linarith
      have h2 : ((⌈x / 10 ^ p⌉ : ℚ) - 1) * 10 ^ p < x / 10 ^ p * 10 ^ p :=
        mul_lt_mul_of_pos_right h1 hs
      rw [hx_eq] at h2
      linarith [h2]
    have hsf0 : (⌈x / 10 ^ p⌉ : ℚ) * 10 ^ p ≤ 0 := by nlinarith
    rw [htr, abs_of_neg hxlt, abs_of_nonpos hsf0]
    constructor <;> linarith

lemma shuffleFloatTrunc_golden1 :
    shuffleFloatTrunc (25123456 / 1000000) (-3) = 25123 / 1000 := by
  have hp : (10 : ℚ) ^ (-3 : ℤ) = 1 / 1000 := by
    rw [zpow_neg]; norm_num
  rw [shuffleFloatTrunc, hp]
  have harg : (25123456 : ℚ) / 1000000 / (1 / 1000) = 25123456 / 1000 := by norm_num
  rw [harg, truncInt, if_pos (by norm_num)]
  have hfl : ⌊(25123456 : ℚ) / 1000⌋ = 25123 := by
    rw [Int.floor_eq_iff]
    norm_num
  rw [hfl]
  norm_num

lemma shuffleFloatTrunc_golden2 :
    shuffleFloatTrunc (122123456 / 1000000) (-3) = 122123 / 1000 := by
  have hp : (10 : ℚ) ^ (-3 : ℤ) = 1 / 1000 := by
    rw [zpow_neg]; norm_num
  rw [shuffleFloatTrunc, hp]
  have harg : (122123456 : ℚ) / 1000000 / (1 / 1000) = 122123456 / 1000 := by norm_num
  rw [harg, truncInt, if_pos (by norm_num)]
  have hfl : ⌊(122123456 : ℚ) / 1000⌋ = 122123 := by
    rw [Int.floor_eq_iff]
    norm_num
  rw [hfl]
  norm_num

/-- Claim C5: `quantifyLatLng` returns both steps equal to `10^precision`
and each coordinate truncated (toward zero, not rounded) to an integer
multiple of that step, losing less than one step of magnitude; in
particular `quantifyLatLng(25.123456, 122.123456, -3) =
(25.123, 122.123, 0.001, 0.001)`. -/
theorem quantifyLatLng_truncates :
    (∀ (lat lng : ℚ) (p : ℤ),
      quantifyLatLng lat lng p =
        (shuffleFloatTrunc lat p, shuffleFloatTrunc lng p, 10 ^ p, 10 ^ p) ∧
      (∃ k : ℤ, shuffleFloatTrunc lat p = (k : ℚ) * 10 ^ p) ∧
      (∃ k : ℤ, shuffleFloatTrunc lng p = (k : ℚ) * 10 ^ p) ∧
      |shuffleFloatTrunc lat p| ≤ |lat| ∧ |lat| < |shuffleFloatTrunc lat p| + 10 ^ p ∧
      |shuffleFloatTrunc lng p| ≤ |lng| ∧ |lng| < |shuffleFloatTrunc lng p| + 10 ^ p) ∧
    quantifyLatLng (25123456 / 1000000) (122123456 / 1000000) (-3) =
      (25123 / 1000, 122123 / 1000, 1 / 1000, 1 / 1000) := by
  constructor
  · intro lat lng p
    obtain ⟨h1, h2⟩ := shuffleFloatTrunc_bounds lat p
    obtain ⟨h3, h4⟩ := shuffleFloatTrunc_bounds lng p
    exact ⟨rfl, ⟨truncInt (lat / 10 ^ p), rfl⟩, ⟨truncInt (lng / 10 ^ p), rfl⟩,
      h1, h2, h3, h4⟩
  · rw [quantifyLatLng, shuffleFloatTrunc_golden1, shuffleFloatTrunc_golden2]
    have hp : (10 : ℚ) ^ (-3 : ℤ) = 1 / 1000 := by
      rw [zpow_neg]; norm_num
    rw [hp]

lemma truncInt_intCast (k : ℤ) : truncInt (k : ℚ) = k := by
  by_cases h : (0 : ℚ) ≤ (k : ℚ) <;>
    simp [truncInt, h, Int.floor_intCast, Int.ceil_intCast]

lemma shuffleFloatTrunc_idem (x : ℚ) (p : ℤ) :
    shuffleFloatTrunc (shuffleFloatTrunc x p) p = shuffleFloatTrunc x p := by
  rw [shuffleFloatTrunc, shuffleFloatTrunc,
    mul_div_cancel_right₀ _ (step_ne p), truncInt_intCast]

/-- Claim C8: `quantifyLatLng` is idempotent: re-quantizing the quantized
coordinates at the same precision returns the same quadruple. -/
theorem quantifyLatLng_idempotent :
    ∀ (lat lng : ℚ) (p : ℤ),
      quantifyLatLng (quantifyLatLng lat lng p).1 (quantifyLatLng lat lng p).2.1 p =
        quantifyLatLng lat lng p := by
  intro lat lng p
  simp [quantifyLatLng, shuffleFloatTrunc_idem]

/-! ## C6: no validation of `time_step_minutes <= 0`; the loop diverges -/

/-- At a negative step the loop condition `t <= stop` stays true forever
(the iterate only decreases), so every amount of fuel is consumed in full:
the JS loop `for(let t = begin; t <= end; t += step)` never terminates. -/
lemma qdLoopF_no_exit (n : ℕ) : ∀ t : ℚ, t ≤ 600 → (qdLoopF n t 600 (-600)).length = n := by
  induction n with
  | zero => intro t ht; rfl
  | succ k ih =>
      intro t ht
      simp only [qdLoopF]
      rw [if_pos ht, List.length_cons, ih (t + -600) (by linarith)]

/-- Claim C6 (the code contradicts it): `quantifyDuration(123, 601, -10)`
computes `step = -600`, `begin = Math.floor(123 / -600) * -600 = 600` and
`end = Math.ceil(601 / -600) * -600 = 600`, and then the loop from 600 with
increment `-600` and condition `t <= 600` never exits: with any fuel bound
`n` it performs all `n` iterations.  No `InvalidArgument` is raised —
`lib_sthash.js` contains no validation at all — the call simply never
returns. -/
theorem quantifyDuration_negative_step_loops_forever :
    ((⌊(123 : ℚ) / (-10 * 60)⌋ : ℚ) * (-10 * 60) = 600) ∧
    ((⌈(601 : ℚ) / (-10 * 60)⌉ : ℚ) * (-10 * 60) = 600) ∧
    ∀ n : ℕ, (qdLoopF n 600 600 ((-10) * 60)).length = n := by
  refine ⟨?_, ?_, ?_⟩
  · have h : ⌊(123 : ℚ) / (-10 * 60)⌋ = -1 := by
      rw [Int.floor_eq_iff]
      norm_num
    rw [h]; norm_num
  · have h : ⌈(601 : ℚ) / (-10 * 60)⌉ = -1 := by
      rw [Int.ceil_eq_iff]
      norm_num
    rw [h]; norm_num
  · intro n
    have h : ((-10 : ℚ)) * 60 = -600 := by norm_num
    rw [h]
    exact qdLoopF_no_exit n 600 le_rfl

/-! ## C10: distinctness of the perimeter points -/

/-- Blocks of a `flatMap` that are individually duplicate-free and pairwise
disjoint over a duplicate-free index list concatenate without duplicates. -/
lemma nodup_flatMap_of_disjoint {α β : Type} (l : List α) (f : α → List β)
    (hl : l.Nodup) (hf : ∀ x ∈ l, (f x).Nodup)
    (hd : ∀ x ∈ l, ∀ y ∈ l, x ≠ y → ∀ z ∈ f x, z ∉ f y) :
    (l.flatMap f).Nodup := by
  induction l with
  | nil => simp
  | cons x xs ih =>
      rw [List.flatMap_cons, List.nodup_append]
      rw [List.nodup_cons] at hl
      refine ⟨hf x (by simp), ih hl.2 (fun y hy => hf y (by simp [hy]))
        (fun a ha c hc hac => hd a (by simp [ha]) c (by simp [hc]) hac), ?_⟩
      intro z hz hz'
      rw [List.mem_flatMap] at hz'
      obtain ⟨y, hy, hzy⟩ := hz'
      have hxy : x ≠ y := fun h => hl.1 (h ▸ hy)
      exact hd x (by simp) y (by simp [hy]) hxy z hz hzy

lemma pair_snd_of_mem {z : ℚ × ℚ} {u1 u2 w : ℚ} (hz : z ∈ [(u1, w), (u2, w)]) :
    z.2 = w := by
  rcases List.mem_cons.mp hz with h | h
  · rw [h]
  · rw [List.mem_singleton.mp h]

lemma pair_fst_of_mem {z : ℚ × ℚ} {u w1 w2 : ℚ} (hz : z ∈ [(u, w1), (u, w2)]) :
    z.1 = u := by
  rcases List.mem_cons.mp hz with h | h
  · rw [h]
  · rw [List.mem_singleton.mp h]

/-- Claim C10: for `spread_out >= 1` and a nonzero common grid step, the
`8 * spread_out` perimeter coordinate pairs emitted for one timestamp are
pairwise distinct under exact arithmetic. -/
theorem enumeratePerimeter_nodup :
    ∀ (lat lng d : ℚ) (s : ℤ), d ≠ 0 → 1 ≤ s →
      (enumeratePerimeter lat lng d d s).Nodup := by
  intro lat lng d s hd hs
  have hs0 : (s : ℚ) * d ≠ 0 := by
    intro h
    rcases mul_eq_zero.mp h with h1 | h2
    · have : s = 0 := by exact_mod_cast h1
      omega
    · exact hd h2
  simp only [enumeratePerimeter]
  rw [List.nodup_append]
  refine ⟨?_, ?_, ?_⟩
  · apply nodup_flatMap_of_disjoint _ _ (nodup_intRangeAsc _ _)
    · intro i _
      refine List.nodup_cons.mpr ⟨?_, List.nodup_singleton _⟩
      rw [List.mem_singleton]
      intro h
      have h1 := congrArg Prod.fst h
      simp only at h1
      apply hs0
      linarith
    · intro x hx y hy hxy z hz hzy
      apply hxy
      have hx2 : z.2 = lng + (x : ℚ) * d := pair_snd_of_mem hz
      have hy2 : z.2 = lng + (y : ℚ) * d := pair_snd_of_mem hzy
      have h3 : (x : ℚ) * d = (y : ℚ) * d := by rw [hx2] at hy2; linarith
      exact_mod_cast mul_right_cancel₀ hd h3
  · apply nodup_flatMap_of_disjoint _ _ (nodup_intRangeDesc _ _)
    · intro j _
      refine List.nodup_cons.mpr ⟨?_, List.nodup_singleton _⟩
      rw [List.mem_singleton]
      intro h
      have h1 := congrArg Prod.snd h
      simp only at h1
      apply hs0
      linarith
    · intro x hx y hy hxy z hz hzy
      apply hxy
      have hx1 : z.1 = lat + (x : ℚ) * d := pair_fst_of_mem hz
      have hy1 : z.1 = lat + (y : ℚ) * d := pair_fst_of_mem hzy
      have h3 : (x : ℚ) * d = (y : ℚ) * d := by rw [hx1] at hy1; linarith
      exact_mod_cast mul_right_cancel₀ hd h3
  · intro z hzA hzB
    rw [List.mem_flatMap] at hzA hzB
    obtain ⟨i, hi, hzi⟩ := hzA
    obtain ⟨j, hj, hzj⟩ := hzB
    have hjmem := mem_intRangeDesc.mp hj
    have hz1B : z.1 = lat + (j : ℚ) * d := pair_fst_of_mem hzj
    rcases List.mem_cons.mp hzi with h | h
    · have hz1A : z.1 = lat - (s : ℚ) * d := by rw [h]
      rw [hz1A] at hz1B
      have h3 : ((-s : ℤ) : ℚ) * d = (j : ℚ) * d := by push_cast; linarith
      have hjs : (-s : ℤ) = j := by exact_mod_cast mul_right_cancel₀ hd h3
      omega
    · have hz1A : z.1 = lat + (s : ℚ) * d := by rw [List.mem_singleton.mp h]
      rw [hz1A] at hz1B
      have h3 : ((s : ℤ) : ℚ) * d = (j : ℚ) * d := by linarith
      have hjs : (s : ℤ) = j := by exact_mod_cast mul_right_cancel₀ hd h3
      omega

/-- Witness for C10 at `d = 1`, `spread_out = 1`. -/
theorem enumeratePerimeter_nodup_witness :
    (1 : ℚ) ≠ 0 ∧ 1 ≤ (1 : ℤ) ∧ (enumeratePerimeter 0 0 1 1 1).Nodup :=
  ⟨by norm_num, by decide, enumeratePerimeter_nodup 0 0 1 1 (by norm_num) (by decide)⟩
